import Mathlib

/-!
Verification of the aggregation pipeline of `src/extension.ts`
(vscode-project-manager). JavaScript strings are modelled as Lean `String`
via their character lists; JavaScript string methods (`indexOf(x) === 0`,
`replace` with a string pattern, `split`/`join`, `toLowerCase`) are given
literal shallow embeddings below.
-/

namespace PM

/-- JS `s.indexOf(pat) === 0`: `pat` occurs at position 0 of `s`,
    i.e. `pat` is a prefix of `s` (first argument is the pattern). -/
def startsWithList : List Char → List Char → Bool
  | [], _ => true
  | _ :: _, [] => false
  | a :: as, b :: bs => a == b && startsWithList as bs

/-- JS `String.prototype.replace` with a string pattern: replace the first
    occurrence of `pat` by `rep`; if `pat` does not occur, the string is
    unchanged.  (Replacement-string `$`-patterns are not modelled.) -/
def replaceFirstList (pat rep : List Char) : List Char → List Char
  | [] => if startsWithList pat [] then rep else []
  | c :: cs =>
    if startsWithList pat (c :: cs) then rep ++ (c :: cs).drop pat.length
    else c :: replaceFirstList pat rep cs

def jsStartsWith (pat s : String) : Bool := startsWithList pat.data s.data

def jsReplaceFirst (pat rep s : String) : String :=
  ⟨replaceFirstList pat.data rep.data s.data⟩

/-- `const homePathVariable = "$home";` from `src/extension.ts` line 16. -/
def homePathVariable : String := "$home"

/-- `compactHomePath` from `src/extension.ts` lines 488-494.
    `homeDir` (`os.homedir()`) is passed explicitly. -/
def compactHomePath (homeDir p : String) : String :=
  if jsStartsWith homeDir p then jsReplaceFirst homeDir homePathVariable p
  else p

/-- `expandHomePath` from `src/extension.ts` lines 499-505. -/
def expandHomePath (homeDir p : String) : String :=
  if jsStartsWith homePathVariable p then jsReplaceFirst homePathVariable homeDir p
  else p

theorem startsWithList_append_drop (pat s : List Char)
    (h : startsWithList pat s = true) : pat ++ s.drop pat.length = s := by
  induction pat generalizing s with
  | nil => simp
  | cons a as ih =>
    cases s with
    | nil => simp [startsWithList] at h
    | cons b bs =>
      simp only [startsWithList, Bool.and_eq_true, beq_iff_eq] at h
      obtain ⟨rfl, h2⟩ := h
      simpa using ih bs h2

theorem replaceFirstList_of_startsWith (pat rep s : List Char)
    (h : startsWithList pat s = true) :
    replaceFirstList pat rep s = rep ++ s.drop pat.length := by
  cases s with
  | nil => simp [replaceFirstList, h]
  | cons c cs => simp [replaceFirstList, h]

theorem startsWithList_append (pat t : List Char) :
    startsWithList pat (pat ++ t) = true := by
  induction pat with
  | nil => simp [startsWithList]
  | cons a as ih => simp [startsWithList, ih]

/-- On the prefix branch, `compactHomePath` yields `$home` followed by the
    remainder of the path, untouched. -/
theorem compactHomePath_eq_of_startsWith (homeDir p : String)
    (h : jsStartsWith homeDir p = true) :
    compactHomePath homeDir p =
      ⟨homePathVariable.data ++ p.data.drop homeDir.data.length⟩ := by
  unfold compactHomePath jsReplaceFirst
  rw [if_pos h]
  unfold jsStartsWith at h
  rw [replaceFirstList_of_startsWith _ _ _ h]

/-- Claim C3: for every path whose home-directory prefix occurs at position
    0, `expandHomePath` undoes `compactHomePath`; and for every path not
    under the home directory, `compactHomePath` is the identity. -/
theorem c3_compact_expand_roundtrip (homeDir p : String) :
    (jsStartsWith homeDir p = true →
      expandHomePath homeDir (compactHomePath homeDir p) = p) ∧
    (jsStartsWith homeDir p = false →
      compactHomePath homeDir p = p) := by
  constructor
  · intro h
    rw [compactHomePath_eq_of_startsWith homeDir p h]
    unfold expandHomePath jsStartsWith jsReplaceFirst
    simp only [startsWithList_append, if_pos]
    rw [replaceFirstList_of_startsWith _ _ _ (startsWithList_append _ _)]
    rw [List.drop_left]
    unfold jsStartsWith at h
    have := startsWithList_append_drop homeDir.data p.data h
    rw [this]
  · intro h
    unfold compactHomePath
    rw [h]
    simp

theorem c3_compact_expand_roundtrip_witness :
    jsStartsWith "/h" "/h/a" = true ∧
    expandHomePath "/h" (compactHomePath "/h" "/h/a") = "/h/a" ∧
    jsStartsWith "/h" "/tmp/h" = false ∧
    compactHomePath "/h" "/tmp/h" = "/tmp/h" :=
  ⟨by decide,
   (c3_compact_expand_roundtrip "/h" "/h/a").1 (by decide),
   by decide,
   (c3_compact_expand_roundtrip "/h" "/tmp/h").2 (by decide)⟩

/-- Claim C10: home-directory substitution is prefix-only.  If the home
    directory does not occur at index 0, `compactHomePath` is the identity
    (even when it occurs later in the string), and symmetrically for
    `expandHomePath` and `$home`; when the prefix does match, only that
    first occurrence is replaced — the remainder `t` is kept verbatim even
    if the pattern occurs again inside `t`. -/
theorem c10_substitution_prefix_only (homeDir p : String) (t : String) :
    (jsStartsWith homeDir p = false → compactHomePath homeDir p = p) ∧
    (jsStartsWith homePathVariable p = false → expandHomePath homeDir p = p) ∧
    compactHomePath homeDir (homeDir ++ t) =
      ⟨homePathVariable.data ++ t.data⟩ ∧
    expandHomePath homeDir (⟨homePathVariable.data ++ t.data⟩ : String) =
      ⟨homeDir.data ++ t.data⟩ := by
  refine ⟨?_, ?_, ?_, ?_⟩
  · intro h
    unfold compactHomePath
    rw [h]
    simp
  · intro h
    unfold expandHomePath
    rw [h]
    simp
  · have hpre : jsStartsWith homeDir (homeDir ++ t) = true := by
      unfold jsStartsWith
      rw [String.data_append]
      exact startsWithList_append _ _
    rw [compactHomePath_eq_of_startsWith _ _ hpre]
    rw [String.data_append, List.drop_left]
  · unfold expandHomePath jsStartsWith jsReplaceFirst
    simp only [startsWithList_append, if_pos]
    rw [replaceFirstList_of_startsWith _ _ _ (startsWithList_append _ _)]
    rw [List.drop_left]

theorem c10_substitution_prefix_only_witness :
    jsStartsWith "/h" "a/h" = false ∧
    compactHomePath "/h" "a/h" = "a/h" ∧
    jsStartsWith homePathVariable "x$home" = false ∧
    expandHomePath "/h" "x$home" = "x$home" ∧
    compactHomePath "/h" ("/h" ++ "/h/x") = "$home/h/x" ∧
    expandHomePath "/h" "$home/$home" = "/h/$home" := by
  have h := c10_substitution_prefix_only "/h" "a/h" "/h/x"
  have h2 := c10_substitution_prefix_only "/h" "x$home" "/$home"
  refine ⟨by decide, h.1 (by decide), by decide, h2.2.1 (by decide), ?_, ?_⟩
  · have := h.2.2.1
    rw [this]
    decide
  · have := h2.2.2.2
    have e : (⟨homePathVariable.data ++ ("/$home" : String).data⟩ : String) =
        "$home/$home" := by decide
    rw [e] at this
    rw [this]
    decide

/-- JS `s.split(sep)` for a one-character separator. -/
def splitOnCharList (c : Char) : List Char → List (List Char)
  | [] => [[]]
  | a :: as =>
    match splitOnCharList c as, a == c with
    | r, true => [] :: r
    | [], false => [[a]]
    | h :: t, false => (a :: h) :: t

/-- JS `Array.prototype.join(sep)`. -/
def joinWithList (sep : List Char) : List (List Char) → List Char
  | [] => []
  | [x] => x
  | x :: y :: t => x ++ sep ++ joinWithList sep (y :: t)

/-- `pathIsUNC` from `src/extension.ts` lines 479-481:
    `path.indexOf("\\\\") === 0`, i.e. the string begins with two
    backslash characters. -/
def pathIsUNC (p : String) : Bool := jsStartsWith "\\\\" p

/-- `normalizePath` from `src/extension.ts` lines 514-523: unless the path
    is UNC, split on a single backslash and join with a double backslash. -/
def normalizePath (p : String) : String :=
  if pathIsUNC p then p
  else ⟨joinWithList ['\\', '\\'] (splitOnCharList '\\' p.data)⟩

/-- The spec-worded operation for claim C9: double every backslash. -/
def doubleBackslashes (p : String) : String :=
  ⟨p.data.flatMap (fun c => if c = '\\' then ['\\', '\\'] else [c])⟩

theorem splitOnCharList_ne_nil (c : Char) (l : List Char) :
    splitOnCharList c l ≠ [] := by
  cases l with
  | nil => simp [splitOnCharList]
  | cons a as =>
    unfold splitOnCharList
    rcases h : splitOnCharList c as with _ | ⟨h1, t1⟩ <;>
      rcases hac : a == c with _ | _ <;> simp

theorem joinWithList_splitOnCharList (c : Char) (sep : List Char)
    (l : List Char) :
    joinWithList sep (splitOnCharList c l) =
      l.flatMap (fun a => if a = c then sep else [a]) := by
  induction l with
  | nil => simp [splitOnCharList, joinWithList]
  | cons a as ih =>
    unfold splitOnCharList
    rcases h : splitOnCharList c as with _ | ⟨h1, t1⟩
    · exact absurd h (splitOnCharList_ne_nil c as)
    · rw [h] at ih
      rcases hac : a == c with _ | _
      · simp only [List.flatMap_cons]
        rw [← ih]
        have hne : a ≠ c := by simpa using hac
        simp only [if_neg hne]
        cases t1 <;> simp [joinWithList]
      · simp only [List.flatMap_cons]
        rw [← ih]
        have : a = c := by simpa using hac
        subst this
        simp [joinWithList]

/-- Claim C9: for every path not beginning with two backslashes,
    `normalizePath` doubles every backslash (split on a single backslash,
    join with a double backslash); for a UNC path (beginning with two
    backslashes) it returns its input unchanged. -/
theorem c9_normalizePath (p : String) :
    (pathIsUNC p = false → normalizePath p = doubleBackslashes p) ∧
    (pathIsUNC p = true → normalizePath p = p) := by
  constructor
  · intro h
    unfold normalizePath doubleBackslashes
    rw [h]
    simp only [Bool.false_eq_true, if_false]
    rw [joinWithList_splitOnCharList]
  · intro h
    unfold normalizePath
    rw [h]
    simp

theorem c9_normalizePath_witness :
    pathIsUNC "a\\b" = false ∧
    normalizePath "a\\b" = doubleBackslashes "a\\b" ∧
    normalizePath "a\\b" = "a\\\\b" ∧
    pathIsUNC "\\\\srv\\s" = true ∧
    normalizePath "\\\\srv\\s" = "\\\\srv\\s" :=
  ⟨by decide,
   (c9_normalizePath "a\\b").1 (by decide),
   by decide,
   by decide,
   (c9_normalizePath "\\\\srv\\s").2 (by decide)⟩

/-- The quick-pick items flowing through the pipeline: `label`,
    `description` (the project location) and the optional `detail`
    annotation. -/
structure Entry where
  label : String
  description : String
  detail : Option String
deriving DecidableEq, Repr

/-- The invalid-path marker set by `indicateInvalidPaths`
    (`src/extension.ts` line 472). -/
def invalidPathMarker : String := "$(circle-slash) Path does not exist"

/-- JS `s.toLowerCase()` (ASCII-level model). -/
def jsToLower (s : String) : String := ⟨s.data.map Char.toLower⟩

/-- JS truthiness of an optional string: `undefined` and `""` are falsy. -/
def optStrFalsy : Option String → Bool
  | none => true
  | some s => s == ""

/-- `expandHomePaths` from `src/extension.ts` lines 507-512: rewrite every
    item's `description` through `expandHomePath`. -/
def expandHomePaths (homeDir : String) (items : List Entry) : List Entry :=
  items.map (fun item => { item with description := expandHomePath homeDir item.description })

/-- `removeRootPath` from `src/extension.ts` lines 457-463.
    `vscode.workspace.rootPath` is modelled as an optional string; the code
    guards on its JS truthiness (`undefined` and `""` skip the filter). -/
def removeRootPath : Option String → List Entry → List Entry
  | none, items => items
  | some rp, items =>
    if rp = "" then items
    else items.filter (fun value => !(jsToLower value.description == jsToLower rp))

/-- `indicateInvalidPaths` from `src/extension.ts` lines 465-477.
    `existsFS` models `fs.existsSync`. -/
def indicateInvalidPaths (existsFS : String → Bool) (items : List Entry) : List Entry :=
  items.map (fun element =>
    if optStrFalsy element.detail && !(existsFS element.description) then
      { element with detail := some invalidPathMarker }
    else element)

/-- The filter/annotate stages of `sortProjectList` (`src/extension.ts`
    lines 239-242), before the final sort. -/
def filterAnnotateStage (homeDir : String) (existsFS : String → Bool)
    (rootPath : Option String) (items : List Entry) : List Entry :=
  indicateInvalidPaths existsFS (removeRootPath rootPath (expandHomePaths homeDir items))

/-- Claim C4: with a known current root path, the filter stage removes
    exactly the entries whose expanded location case-insensitively equals
    the current root path — the survivors are the expanded versions of the
    non-matching input entries, in their relative order (a sublist of the
    expanded sequence) — and with an unknown root path nothing is removed. -/
theorem c4_removeRootPath (homeDir rp : String) (items : List Entry)
    (hrp : rp ≠ "") :
    removeRootPath (some rp) (expandHomePaths homeDir items) =
      (items.filter (fun value =>
        !(jsToLower (expandHomePath homeDir value.description) == jsToLower rp))).map
        (fun item => { item with description := expandHomePath homeDir item.description }) ∧
    List.Sublist (removeRootPath (some rp) (expandHomePaths homeDir items))
      (expandHomePaths homeDir items) ∧
    removeRootPath none (expandHomePaths homeDir items) =
      expandHomePaths homeDir items := by
  refine ⟨?_, ?_, rfl⟩
  · simp only [removeRootPath, expandHomePaths]
    rw [if_neg hrp]
    induction items with
    | nil => simp
    | cons a as ih =>
      simp only [List.map_cons, List.filter_cons]
      rcases hmatch : !(jsToLower (expandHomePath homeDir a.description) == jsToLower rp) with _ | _
      · simpa [hmatch] using ih
      · simpa [hmatch] using ih
  · simp only [removeRootPath]
    rw [if_neg hrp]
    exact List.filter_sublist _

theorem c4_removeRootPath_witness :
    removeRootPath (some "/P")
        (expandHomePaths "/h"
          [Entry.mk "A" "/p" none, Entry.mk "B" "/q" none]) =
      [Entry.mk "B" "/q" none] := by
  have h := (c4_removeRootPath "/h" "/P"
    [Entry.mk "A" "/p" none, Entry.mk "B" "/q" none] (by decide)).1
  rw [h]
  decide

/-- Claim C5: position by position, an entry lacking a (truthy) detail
    whose location does not exist gets its `detail` set to the invalid-path
    marker; an entry whose location exists is returned unchanged (so a
    detail-free entry stays detail-free); and an entry that already has a
    detail is returned unchanged. -/
theorem c5_indicateInvalidPaths (existsFS : String → Bool) (items : List Entry) :
    List.Forall₂ (fun e o =>
      (optStrFalsy e.detail = true → existsFS e.description = false →
        o = { e with detail := some invalidPathMarker }) ∧
      (existsFS e.description = true → o = e) ∧
      (optStrFalsy e.detail = false → o = e))
      items (indicateInvalidPaths existsFS items) := by
  induction items with
  | nil => exact List.Forall₂.nil
  | cons a as ih =>
    refine List.Forall₂.cons ⟨?_, ?_, ?_⟩ ih
    · intro h1 h2
      simp [indicateInvalidPaths, h1, h2]
    · intro h2
      simp [indicateInvalidPaths, h2]
    · intro h1
      simp [indicateInvalidPaths, h1]

theorem c5_indicateInvalidPaths_witness :
    List.Forall₂ (fun e o =>
      (optStrFalsy e.detail = true → (e.description == "/ok") = false →
        o = { e with detail := some invalidPathMarker }) ∧
      ((e.description == "/ok") = true → o = e) ∧
      (optStrFalsy e.detail = false → o = e))
      [Entry.mk "A" "/bad" none, Entry.mk "B" "/ok" none,
        Entry.mk "C" "/bad" (some "d")]
      (indicateInvalidPaths (fun s => s == "/ok")
        [Entry.mk "A" "/bad" none, Entry.mk "B" "/ok" none,
          Entry.mk "C" "/bad" (some "d")]) :=
  c5_indicateInvalidPaths (fun s => s == "/ok")
    [Entry.mk "A" "/bad" none, Entry.mk "B" "/ok" none,
      Entry.mk "C" "/bad" (some "d")]

/-- Claim C8, as stated ("only the `detail` field of an entry is ever
    mutated"), is false: `expandHomePaths` rewrites the `description`
    (location) field of an entry stored in portable form.  Concretely, with
    home directory `/h`, the entry `{label A, location $home/x}` comes out
    of the stage with location `/h/x`, which matches no input entry's
    location. -/
theorem c8_counterexample :
    ¬ (∀ e ∈ filterAnnotateStage "/h" (fun _ => true) none
          [Entry.mk "A" "$home/x" none],
        ∃ eIn ∈ [Entry.mk "A" "$home/x" none],
          e.label = eIn.label ∧ e.description = eIn.description) := by
  decide

/-- Claim C8 (amended): across expansion, current-root removal and
    invalid-path flagging, every output entry arises from an input entry
    with the same `label`, with `description` equal to the home-expansion
    of the input's `description` (the only change ever applied to it), and
    with `detail` either unchanged or set to the invalid-path marker. -/
theorem c8_frame (homeDir : String) (existsFS : String → Bool)
    (rootPath : Option String) (items : List Entry) :
    ∀ e ∈ filterAnnotateStage homeDir existsFS rootPath items,
      ∃ eIn ∈ items,
        e.label = eIn.label ∧
        e.description = expandHomePath homeDir eIn.description ∧
        (e.detail = eIn.detail ∨ e.detail = some invalidPathMarker) := by
  intro e he
  unfold filterAnnotateStage indicateInvalidPaths at he
  rw [List.mem_map] at he
  obtain ⟨x, hx, hxe⟩ := he
  have hx2 : x ∈ expandHomePaths homeDir items := by
    rcases rootPath with _ | rp
    · simpa [removeRootPath] using hx
    · simp only [removeRootPath] at hx
      by_cases hrp : rp = ""
      · rw [if_pos hrp] at hx
        exact hx
      · rw [if_neg hrp] at hx
        exact List.mem_of_mem_filter hx
  unfold expandHomePaths at hx2
  rw [List.mem_map] at hx2
  obtain ⟨eIn, hIn, hg⟩ := hx2
  have hlabel : e.label = x.label := by
    rw [← hxe]
    split <;> rfl
  have hdesc : e.description = x.description := by
    rw [← hxe]
    split <;> rfl
  have hdetail : e.detail = x.detail ∨ e.detail = some invalidPathMarker := by
    rw [← hxe]
    split
    · right
      rfl
    · left
      rfl
  refine ⟨eIn, hIn, ?_, ?_, ?_⟩
  · rw [hlabel, ← hg]
  · rw [hdesc, ← hg]
  · rw [← hg] at hdetail
    simpa using hdetail

theorem c8_frame_witness :
    ∃ eIn ∈ [Entry.mk "A" "$home/x" none],
      (Entry.mk "A" "/h/x" (some invalidPathMarker)).label = eIn.label ∧
      (Entry.mk "A" "/h/x" (some invalidPathMarker)).description =
        expandHomePath "/h" eIn.description ∧
      ((Entry.mk "A" "/h/x" (some invalidPathMarker)).detail = eIn.detail ∨
        (Entry.mk "A" "/h/x" (some invalidPathMarker)).detail =
          some invalidPathMarker) :=
  c8_frame "/h" (fun _ => false) none [Entry.mk "A" "$home/x" none]
    (Entry.mk "A" "/h/x" (some invalidPathMarker)) (by decide)

/-- `const enum ProjectsSource` from `src/extension.ts` lines 22-27. -/
inductive ProjectsSource
  | Projects
  | VSCode
  | Git
  | Svn
deriving DecidableEq, Repr

/-- The `{name, fullPath}` records produced by a locator's
    `locateProjects`. -/
structure DirInfo where
  name : String
  fullPath : String
deriving DecidableEq, Repr

/-- `const MERGE_PROJECTS: boolean = true;` from `src/extension.ts`
    line 20. -/
def MERGE_PROJECTS : Bool := true

/-- The quick-pick item built for a discovered IDE-workspace project
    (`src/extension.ts` lines 268-273). -/
def vscodeDecorate (item : DirInfo) : Entry :=
  ⟨"$(file-code) " ++ item.name, item.fullPath, none⟩

/-- The quick-pick item built for a discovered Git project
    (`src/extension.ts` lines 292-300). -/
def gitDecorate (item : DirInfo) : Entry :=
  ⟨"$(git-branch) " ++ item.name, item.fullPath, none⟩

/-- The quick-pick item built for a discovered Svn project
    (`src/extension.ts` lines 319-327). -/
def svnDecorate (item : DirInfo) : Entry :=
  ⟨"$(zap) " ++ item.name, item.fullPath, none⟩

/-- `getProjects` from `src/extension.ts` lines 248-259: the catalog items
    when the Projects origin is enabled, the empty list otherwise. -/
def getProjects (itemsSorted : List Entry) (sources : List ProjectsSource) : List Entry :=
  if sources.contains ProjectsSource.Projects then itemsSorted else []

/-- `getVSCodeProjects` from `src/extension.ts` lines 261-283, as a
    function of the locator's settled directory list: decorated discovered
    items, concatenated in front of the accumulated items when `merge`. -/
def getVSCodeProjects (itemsSorted : List Entry) (merge : Bool)
    (dirList : List DirInfo) : List Entry :=
  let newItems := dirList.map vscodeDecorate
  if merge then newItems ++ itemsSorted else newItems

/-- `getGitProjects` from `src/extension.ts` lines 285-310. -/
def getGitProjects (itemsSorted : List Entry) (merge : Bool)
    (dirList : List DirInfo) : List Entry :=
  let newItems := dirList.map gitDecorate
  if merge then newItems ++ itemsSorted else newItems

/-- `getSvnProjects` from `src/extension.ts` lines 312-337. -/
def getSvnProjects (itemsSorted : List Entry) (merge : Bool)
    (dirList : List DirInfo) : List Entry :=
  let newItems := dirList.map svnDecorate
  if merge then newItems ++ itemsSorted else newItems

/-- One step of the promise chain in `listProjects`
    (`src/extension.ts` lines 418-431): the VSCode origin folds in its
    result when enabled, otherwise the accumulated folders pass through. -/
def vscodeStep (sources : List ProjectsSource) (dirList : List DirInfo)
    (folders : List Entry) : List Entry :=
  if sources.contains ProjectsSource.VSCode then
    getVSCodeProjects folders MERGE_PROJECTS dirList
  else folders

/-- The Git step of the promise chain (`src/extension.ts` lines 432-438). -/
def gitStep (sources : List ProjectsSource) (dirList : List DirInfo)
    (folders : List Entry) : List Entry :=
  if sources.contains ProjectsSource.Git then
    getGitProjects folders MERGE_PROJECTS dirList
  else folders

/-- The Svn step of the promise chain (`src/extension.ts` lines 439-445). -/
def svnStep (sources : List ProjectsSource) (dirList : List DirInfo)
    (folders : List Entry) : List Entry :=
  if sources.contains ProjectsSource.Svn then
    getSvnProjects folders MERGE_PROJECTS dirList
  else folders

/-- The aggregation performed by `listProjects` (`src/extension.ts` lines
    415-445): the `.then` chain applies the origins in the fixed order
    Projects (catalog), VSCode, Git, Svn, so the outcome is a pure function
    of each locator's settled directory list, independent of the order in
    which the underlying asynchronous calls complete. -/
def listProjectsAggregate (items : List Entry) (sources : List ProjectsSource)
    (vscDirs gitDirs svnDirs : List DirInfo) : List Entry :=
  svnStep sources svnDirs
    (gitStep sources gitDirs
      (vscodeStep sources vscDirs
        (getProjects items sources)))

/-- Modelled from the spec: the Discovery Source locators
    (`src/vscodeLocator.ts`, `src/gitLocator.ts`, `src/svnLocator.ts`) are
    not among the given sources.  Per the spec, a source whose scan fails
    contributes an empty result rather than failing the aggregation, so the
    settled outcome of a `locateProjects` call is its directory list on
    success and the empty list on failure. -/
def locatorOutcome : Except String (List DirInfo) → List DirInfo
  | Except.error _ => []
  | Except.ok l => l

/-- The aggregation as a function of each locator call's outcome
    (success with a directory list, or failure). -/
def listProjectsWithOutcomes (items : List Entry) (sources : List ProjectsSource)
    (vsc git svn : Except String (List DirInfo)) : List Entry :=
  listProjectsAggregate items sources
    (locatorOutcome vsc) (locatorOutcome git) (locatorOutcome svn)

/-- The full origin set used by the `listProjects` commands
    (`src/extension.ts` lines 51-52). -/
def allSources : List ProjectsSource :=
  [ProjectsSource.Projects, ProjectsSource.VSCode, ProjectsSource.Git,
    ProjectsSource.Svn]

/-- Claim C1: with the merge policy true, each source's aggregation step
    concatenates the discovered (decorated) entries in front of the
    accumulated entries, which are preserved verbatim; in particular, with
    catalog content `{A@/x}` and the IDE-workspace source returning
    `{B@/y}`, the aggregation returns `[B, A]`.  The result is a pure
    function of the settled locator lists — the `.then` chain fixes the
    fold order — so it does not depend on which asynchronous call resolves
    first. -/
theorem c1_merge_concatenates_discovered_first (acc : List Entry)
    (dirs : List DirInfo) :
    getVSCodeProjects acc true dirs = dirs.map vscodeDecorate ++ acc ∧
    getGitProjects acc true dirs = dirs.map gitDecorate ++ acc ∧
    getSvnProjects acc true dirs = dirs.map svnDecorate ++ acc ∧
    listProjectsAggregate [Entry.mk "A" "/x" none] allSources
        [DirInfo.mk "B" "/y"] [] [] =
      [Entry.mk "$(file-code) B" "/y" none, Entry.mk "A" "/x" none] :=
  ⟨rfl, rfl, rfl, by decide⟩

/-- Claim C2: the aggregation folds the origins in the fixed order Catalog,
    IDE-workspace, Git, Svn; when the Catalog origin is not enabled the
    running sequence starts empty; and a step whose origin is not enabled
    passes the running sequence through unchanged. -/
theorem c2_fold_order (items : List Entry) (sources : List ProjectsSource)
    (vscDirs gitDirs svnDirs : List DirInfo) :
    listProjectsAggregate items sources vscDirs gitDirs svnDirs =
      svnStep sources svnDirs
        (gitStep sources gitDirs
          (vscodeStep sources vscDirs (getProjects items sources))) ∧
    (sources.contains ProjectsSource.Projects = false →
      getProjects items sources = []) ∧
    (∀ acc, sources.contains ProjectsSource.VSCode = false →
      vscodeStep sources vscDirs acc = acc) ∧
    (∀ acc, sources.contains ProjectsSource.Git = false →
      gitStep sources gitDirs acc = acc) ∧
    (∀ acc, sources.contains ProjectsSource.Svn = false →
      svnStep sources svnDirs acc = acc) := by
  refine ⟨rfl, ?_, ?_, ?_, ?_⟩
  · intro h
    unfold getProjects
    rw [h]
    simp
  · intro acc h
    unfold vscodeStep
    rw [h]
    simp
  · intro acc h
    unfold gitStep
    rw [h]
    simp
  · intro acc h
    unfold svnStep
    rw [h]
    simp

theorem c2_fold_order_witness :
    getProjects [Entry.mk "A" "/x" none] [ProjectsSource.VSCode] = [] ∧
    vscodeStep [ProjectsSource.Projects] [DirInfo.mk "B" "/y"]
      [Entry.mk "A" "/x" none] = [Entry.mk "A" "/x" none] ∧
    gitStep [ProjectsSource.Projects] [DirInfo.mk "B" "/y"]
      [Entry.mk "A" "/x" none] = [Entry.mk "A" "/x" none] ∧
    svnStep [ProjectsSource.Projects] [DirInfo.mk "B" "/y"]
      [Entry.mk "A" "/x" none] = [Entry.mk "A" "/x" none] :=
  ⟨(c2_fold_order [Entry.mk "A" "/x" none] [ProjectsSource.VSCode]
      [] [] []).2.1 (by decide),
   (c2_fold_order [Entry.mk "A" "/x" none] [ProjectsSource.Projects]
      [DirInfo.mk "B" "/y"] [DirInfo.mk "B" "/y"] [DirInfo.mk "B" "/y"]).2.2.1
      [Entry.mk "A" "/x" none] (by decide),
   (c2_fold_order [Entry.mk "A" "/x" none] [ProjectsSource.Projects]
      [DirInfo.mk "B" "/y"] [DirInfo.mk "B" "/y"] [DirInfo.mk "B" "/y"]).2.2.2.1
      [Entry.mk "A" "/x" none] (by decide),
   (c2_fold_order [Entry.mk "A" "/x" none] [ProjectsSource.Projects]
      [DirInfo.mk "B" "/y"] [DirInfo.mk "B" "/y"] [DirInfo.mk "B" "/y"]).2.2.2.2
      [Entry.mk "A" "/x" none] (by decide)⟩

/-- Claim C7: a failing locator call contributes exactly what an empty
    success would, and the aggregation still completes with the other
    sources' entries: with every origin enabled and the Git locator
    failing, the result is the Svn and IDE-workspace entries followed by
    the catalog entries. -/
theorem c7_source_failure_contained (items : List Entry)
    (sources : List ProjectsSource) (vsc svn : Except String (List DirInfo))
    (msg : String) (vscDirs svnDirs : List DirInfo) :
    listProjectsWithOutcomes items sources vsc (Except.error msg) svn =
      listProjectsWithOutcomes items sources vsc (Except.ok []) svn ∧
    listProjectsWithOutcomes items allSources (Except.ok vscDirs)
        (Except.error msg) (Except.ok svnDirs) =
      svnDirs.map svnDecorate ++ vscDirs.map vscodeDecorate ++ items := by
  constructor
  · rfl
  · have hP : allSources.contains ProjectsSource.Projects = true := by decide
    have hV : allSources.contains ProjectsSource.VSCode = true := by decide
    have hG : allSources.contains ProjectsSource.Git = true := by decide
    have hS : allSources.contains ProjectsSource.Svn = true := by decide
    simp only [listProjectsWithOutcomes, listProjectsAggregate, locatorOutcome,
      svnStep, gitStep, vscodeStep, getProjects, getSvnProjects, getGitProjects,
      getVSCodeProjects, MERGE_PROJECTS, hP, hV, hG, hS, if_true]
    simp [List.append_assoc]

/-- The `Project` records of the persisted catalog
    (`{label, location, note}` in the spec; `name`/`rootPath`/`group` at the
    `projectStorage.push` call sites in `src/extension.ts`). -/
structure CatalogEntry where
  name : String
  rootPath : String
  group : String
deriving DecidableEq, Repr

/-- Modelled from the spec: `ProjectStorage.exists` (`src/storage.ts` is
    absent from the sources) — lookup-by-name on the durable key-ordered
    list of saved entries. -/
def storageHasName (name : String) (cat : List CatalogEntry) : Bool :=
  cat.any (fun e => e.name == name)

/-- Modelled from the spec: `ProjectStorage.push` — insert a new
    `{label, location, note}` record into the catalog list. -/
def storagePush (name rootPath group : String)
    (cat : List CatalogEntry) : List CatalogEntry :=
  cat ++ [⟨name, rootPath, group⟩]

/-- Modelled from the spec: `ProjectStorage.updateRootPath` — replace the
    location of the entry with the given label (update of the root-path
    by name). -/
def storageUpdateRootPath (name rootPath : String)
    (cat : List CatalogEntry) : List CatalogEntry :=
  cat.map (fun e => if e.name == name then { e with rootPath := rootPath } else e)

/-- The user's answer to the "Project already exists!" dialog in
    `saveProject` (`src/extension.ts` lines 211-234); `dismissed` models
    closing the dialog without choosing. -/
inductive SaveChoice
  | update
  | cancel
  | dismissed
deriving DecidableEq, Repr

/-- The effect of the "Project already exists!" dialog
    (`src/extension.ts` lines 211-234): Update replaces the stored root
    path by name; Cancel or dismissing does nothing. -/
def saveChoiceEffect (cat : List CatalogEntry) (name rootPath : String) :
    SaveChoice → List CatalogEntry
  | SaveChoice.update => storageUpdateRootPath name rootPath cat
  | SaveChoice.cancel => cat
  | SaveChoice.dismissed => cat

/-- The effect of `saveProject` (`src/extension.ts` lines 149-237) on the
    catalog: `projectName = none` models dismissing the input box, an empty
    name aborts, an unknown name is pushed, a known name is updated or left
    alone according to the dialog choice. -/
def saveProjectCatalog (cat : List CatalogEntry) :
    Option String → String → SaveChoice → List CatalogEntry
  | none, _, _ => cat
  | some name, rootPath, choice =>
    if name = "" then cat
    else if storageHasName name cat = false then storagePush name rootPath "" cat
    else saveChoiceEffect cat name rootPath choice

theorem storageHasName_false_not_mem (name : String) (cat : List CatalogEntry)
    (h : storageHasName name cat = false) :
    name ∉ cat.map CatalogEntry.name := by
  intro hmem
  rw [List.mem_map] at hmem
  obtain ⟨e, he, hen⟩ := hmem
  rw [storageHasName, List.any_eq_false] at h
  exact h e he (by simp [hen])

/-- Claim C6: an empty (or dismissed) label aborts the save with no catalog
    mutation; when the label already exists, no second entry is created —
    choosing Update only replaces the matching entry's root path and keeps
    the catalog's length, any other choice leaves the catalog unchanged —
    the create branch is reachable only when the label is absent, and every
    save preserves label-uniqueness of the catalog. -/
theorem c6_save_preserves_uniqueness (cat : List CatalogEntry)
    (name rootPath : String) (choice : SaveChoice) :
    (saveProjectCatalog cat none rootPath choice = cat) ∧
    (saveProjectCatalog cat (some "") rootPath choice = cat) ∧
    (name ≠ "" → storageHasName name cat = true →
      (saveProjectCatalog cat (some name) rootPath choice).length = cat.length ∧
      (choice = SaveChoice.update →
        saveProjectCatalog cat (some name) rootPath choice =
          cat.map (fun e => if e.name == name then { e with rootPath := rootPath }
            else e)) ∧
      (choice ≠ SaveChoice.update →
        saveProjectCatalog cat (some name) rootPath choice = cat)) ∧
    (name ≠ "" → storageHasName name cat = false →
      saveProjectCatalog cat (some name) rootPath choice =
        cat ++ [CatalogEntry.mk name rootPath ""]) ∧
    ((cat.map CatalogEntry.name).Nodup →
      ((saveProjectCatalog cat (some name) rootPath choice).map
        CatalogEntry.name).Nodup) := by
  have hupdmap : ((storageUpdateRootPath name rootPath cat).map
      CatalogEntry.name) = cat.map CatalogEntry.name := by
    unfold storageUpdateRootPath
    rw [List.map_map]
    congr 1
    funext e
    simp only [Function.comp]
    split <;> rfl
  refine ⟨rfl, by simp [saveProjectCatalog], ?_, ?_, ?_⟩
  · intro hname hhas
    simp only [saveProjectCatalog]
    rw [if_neg hname, hhas]
    simp only [Bool.true_eq_false, if_false]
    refine ⟨?_, ?_, ?_⟩
    · cases choice with
      | update =>
        show (storageUpdateRootPath name rootPath cat).length = cat.length
        unfold storageUpdateRootPath
        exact List.length_map _ _
      | cancel => rfl
      | dismissed => rfl
    · intro hch
      subst hch
      rfl
    · intro hch
      cases choice with
      | update => exact absurd rfl hch
      | cancel => rfl
      | dismissed => rfl
  · intro hname hhas
    simp only [saveProjectCatalog]
    rw [if_neg hname, hhas]
    rfl
  · intro hnodup
    by_cases hname : name = ""
    · subst hname
      simpa [saveProjectCatalog] using hnodup
    · simp only [saveProjectCatalog]
      rw [if_neg hname]
      rcases hhas : storageHasName name cat with _ | _
      · rw [if_pos rfl]
        unfold storagePush
        rw [List.map_append, List.nodup_append]
        refine ⟨hnodup, by simp, ?_⟩
        intro a ha hb
        simp only [List.map_cons, List.map_nil, List.mem_singleton] at hb
        subst hb
        exact storageHasName_false_not_mem _ cat hhas ha
      · simp only [Bool.true_eq_false, if_false]
        cases choice with
        | update =>
          show ((storageUpdateRootPath name rootPath cat).map
            CatalogEntry.name).Nodup
          rw [hupdmap]
          exact hnodup
        | cancel => exact hnodup
        | dismissed => exact hnodup

theorem c6_save_preserves_uniqueness_witness :
    (saveProjectCatalog [CatalogEntry.mk "A" "/x" ""] (some "A") "/y"
        SaveChoice.update = [CatalogEntry.mk "A" "/y" ""]) ∧
    (saveProjectCatalog [CatalogEntry.mk "A" "/x" ""] (some "A") "/y"
        SaveChoice.cancel = [CatalogEntry.mk "A" "/x" ""]) ∧
    (saveProjectCatalog [CatalogEntry.mk "A" "/x" ""] (some "B") "/y"
        SaveChoice.dismissed =
      [CatalogEntry.mk "A" "/x" "", CatalogEntry.mk "B" "/y" ""]) ∧
    ((saveProjectCatalog [CatalogEntry.mk "A" "/x" ""] (some "A") "/y"
        SaveChoice.update).map CatalogEntry.name).Nodup := by
  have hupd := c6_save_preserves_uniqueness [CatalogEntry.mk "A" "/x" ""]
    "A" "/y" SaveChoice.update
  have hcan := c6_save_preserves_uniqueness [CatalogEntry.mk "A" "/x" ""]
    "A" "/y" SaveChoice.cancel
  have hnew := c6_save_preserves_uniqueness [CatalogEntry.mk "A" "/x" ""]
    "B" "/y" SaveChoice.dismissed
  refine ⟨?_, ?_, ?_, ?_⟩
  · have := (hupd.2.2.1 (by decide) (by decide)).2.1 rfl
    rw [this]
    decide
  · exact (hcan.2.2.1 (by decide) (by decide)).2.2 (by decide)
  · have := hnew.2.2.2.1 (by decide) (by decide)
    rw [this]
    decide
  · exact hupd.2.2.2.2 (by decide)

end PM
